import Mathlib

/-!
Verification development for `bridge.py`, a WebSocket ↔ SCPI relay for a
Siglent SPS5000X power supply.

The relay keeps three pieces of process-wide mutable state:

* `_pending_fields` — a FIFO of expected measurement field names, appended by
  `track_query` and popped by `track_response`;
* `_collected` — a partial record of field → value pairs accumulated until all
  six required fields are present, at which point one point is written to
  InfluxDB and the record is cleared;
* `_tui_values` — the latest value per field shown by the TUI.

We embed this state as `BridgeState` and translate the relevant functions
(`track_query`, `track_response`, `write_influx_point`, the per-message body
of `handler_tcp`, and the TUI-path `_tcp_send`) as pure Lean functions.
Python dictionaries are modelled as insertion-ordered association lists,
Python floats as rationals (`ℚ`): every numeric literal appearing in the
claims is exactly representable, and `float()`-parsing of finite decimal /
scientific literals is modelled by `parseFloat` (non-finite literals such as
`inf`/`nan` and digit-group underscores are outside the model).
-/

/-- `LAct`: the four transport-relevant atomic actions a relay task performs,
used by the lock-serialization model of `_serial_lock`: acquiring the
`asyncio.Lock`, writing to the instrument transport, reading a reply line,
and releasing the lock. -/
inductive LAct where
  | acquire
  | lwrite
  | lread
  | release
deriving DecidableEq, Repr

/-- Process state of the bridge relevant to query tracking and aggregation:
`_pending_fields`, `_collected`, `_tui_values`, and whether `_influx` is a
configured sink (`setup_influxdb` returned a config) or `None`. -/
structure BridgeState where
  pending   : List String
  collected : List (String × ℚ)
  tuiValues : List (String × Option ℚ)
  influxOn  : Bool
deriving DecidableEq, Repr

/-- The `MEAS_QUERIES` table of bridge.py: SCPI measurement query patterns
(uppercase) paired with the InfluxDB/TUI field name, in source order. -/
def MEAS_QUERIES : List (String × String) :=
  [("MEASURE:VOLTAGE? CH1", "ch1_v"),
   ("MEASURE:CURRENT? CH1", "ch1_i"),
   ("MEASURE:VOLTAGE? CH2", "ch2_v"),
   ("MEASURE:CURRENT? CH2", "ch2_i"),
   ("MEASURE:VOLTAGE? CH3", "ch3_v"),
   ("MEASURE:CURRENT? CH3", "ch3_i")]

/-- The six required field names (the `required` set in `track_response`). -/
def requiredFields : List String :=
  ["ch1_v", "ch1_i", "ch2_v", "ch2_i", "ch3_v", "ch3_i"]

/-- Python dict assignment `d[k] = v` on an insertion-ordered association
list: overwrite in place if the key exists, else append. -/
def dictSet {α : Type} (d : List (String × α)) (k : String) (v : α) :
    List (String × α) :=
  match d with
  | [] => [(k, v)]
  | (k', v') :: t => if k' = k then (k, v) :: t else (k', v') :: dictSet t k v

/-- The keys of an association-list dictionary, in insertion order. -/
def dictKeys {α : Type} (d : List (String × α)) : List String := d.map (·.1)

/-- `required.issubset(_collected.keys())` from `track_response`. -/
def requiredSubset (d : List (String × ℚ)) : Bool :=
  requiredFields.all (fun f => (dictKeys d).contains f)

/-- Python `s.strip()`: remove leading and trailing whitespace. -/
def pyStrip (s : String) : String :=
  ⟨((s.data.dropWhile Char.isWhitespace).reverse.dropWhile Char.isWhitespace).reverse⟩

/-- Python `s.upper()` on ASCII text: uppercase each character. -/
def pyUpper (s : String) : String :=
  ⟨s.data.map Char.toUpper⟩

/-- Python `c in s` for a single character. -/
def pyContains (s : String) (c : Char) : Bool :=
  s.data.contains c

/-- Value of a decimal digit string (most significant first). -/
def digitsVal (ds : List Char) : ℕ :=
  ds.foldl (fun a c => a * 10 + (c.toNat - 48)) 0

/-- Parse the mantissa part of a Python float literal: digits, optionally a
point with more digits; at least one digit overall. Returns the mantissa
digits' value, the number of fractional digits, and the unconsumed rest. -/
def parseMantissa (cs : List Char) : Option (ℕ × ℕ × List Char) :=
  let ip := cs.takeWhile (·.isDigit)
  let cs1 := cs.dropWhile (·.isDigit)
  match cs1 with
  | '.' :: t =>
      let fp := t.takeWhile (·.isDigit)
      let cs2 := t.dropWhile (·.isDigit)
      if ip.isEmpty && fp.isEmpty then none
      else some (digitsVal (ip ++ fp), fp.length, cs2)
  | _ =>
      if ip.isEmpty then none
      else some (digitsVal ip, 0, cs1)

/-- Assemble `sgn * mant * 10 ^ (ex - scale)` as an exact rational, using
core arithmetic only so that proofs can evaluate it by kernel reduction. -/
def ratOfParts (sgn : ℤ) (mant scale : ℕ) (ex : ℤ) : ℚ :=
  if 0 ≤ ex then
    mkRat (Int.mul sgn (Int.ofNat (Nat.mul mant (Nat.pow 10 ex.toNat)))) (Nat.pow 10 scale)
  else mkRat (Int.mul sgn (Int.ofNat mant)) (Nat.pow 10 (Nat.add scale ex.natAbs))

/-- Parse the exponent tail (after `e`/`E`) and finish the literal. -/
def parseExpTail (sgn : ℤ) (mant scale : ℕ) (t : List Char) : Option ℚ :=
  let (esgn, t1) : ℤ × List Char :=
    match t with
    | '+' :: u => (1, u)
    | '-' :: u => (-1, u)
    | u => (1, u)
  let ed := t1.takeWhile (·.isDigit)
  let t2 := t1.dropWhile (·.isDigit)
  if ed.isEmpty || !t2.isEmpty then none
  else some (ratOfParts sgn mant scale (Int.mul esgn (Int.ofNat (digitsVal ed))))

/-- Model of Python `float(s)` on an already-stripped string, for finite
decimal and scientific literals: optional sign, digits with optional point,
optional exponent. Parse failure models the `ValueError` branch. -/
def parseFloat (s : String) : Option ℚ :=
  let cs := s.data
  let (sgn, cs1) : ℤ × List Char :=
    match cs with
    | '+' :: t => (1, t)
    | '-' :: t => (-1, t)
    | t => (1, t)
  match parseMantissa cs1 with
  | none => none
  | some (mant, scale, rest) =>
    match rest with
    | [] => some (ratOfParts sgn mant scale 0)
    | 'e' :: t => parseExpTail sgn mant scale t
    | 'E' :: t => parseExpTail sgn mant scale t
    | _ => none

/-- The first `MEAS_QUERIES` entry whose pattern equals the normalized
command, as scanned by the `for pattern, field_name in MEAS_QUERIES.items()`
loop of `track_query`. -/
def lookupMeas (cmdUpper : String) : Option String :=
  (MEAS_QUERIES.find? (fun p => cmdUpper = p.1)).map (·.2)

/-- `track_query(cmd)`: if `cmd.strip().upper()` equals one of the six
measurement-query patterns, append the mapped field name to
`_pending_fields`; otherwise do nothing. -/
def track_query (st : BridgeState) (cmd : String) : BridgeState :=
  match lookupMeas (pyUpper (pyStrip cmd)) with
  | some f => { st with pending := st.pending ++ [f] }
  | none => st

/-- `track_response(line)`: if `_pending_fields` is empty, return; otherwise
pop the oldest field name, parse `line.strip()` as a float (on failure the
slot is consumed and nothing else happens), update `_tui_values`, and when
the sink is configured accumulate into `_collected`, emitting and clearing
once all six required fields are present. The second component is the record
passed to `write_influx_point`, if any. -/
def track_response (st : BridgeState) (line : String) :
    BridgeState × Option (List (String × ℚ)) :=
  match st.pending with
  | [] => (st, none)
  | field :: rest =>
    match parseFloat (pyStrip line) with
    | none => ({ st with pending := rest }, none)
    | some value =>
      let tv := dictSet st.tuiValues field (some value)
      if st.influxOn then
        let col := dictSet st.collected field value
        if requiredSubset col then
          ({ st with pending := rest, tuiValues := tv, collected := [] }, some col)
        else
          ({ st with pending := rest, tuiValues := tv, collected := col }, none)
      else
        ({ st with pending := rest, tuiValues := tv }, none)

/-- The initial bridge state: empty FIFO, empty partial record, the six TUI
values initialized to `None`, and the given sink configuration state. -/
def initState (influxOn : Bool) : BridgeState :=
  { pending := []
    collected := []
    tuiValues := [("ch1_v", none), ("ch1_i", none), ("ch2_v", none),
                  ("ch2_i", none), ("ch3_v", none), ("ch3_i", none)]
    influxOn := influxOn }

/-- Underlying InfluxDB `write_api.write(...)` call: raises (models the
`Exception` branch) when the sink write fails. -/
def influx_write (sinkOk : Bool) : Except String Unit :=
  if sinkOk then .ok () else .error "sink write failed"

/-- `write_influx_point(fields)`: returns immediately when `_influx` is not
configured; otherwise performs the sink write with the `try/except` of the
source, so a failing write is caught (and logged) rather than propagated. -/
def write_influx_point (influxOn sinkOk : Bool) : Except String Unit :=
  if influxOn then
    match influx_write sinkOk with
    | .ok () => .ok ()
    | .error _ => .ok ()
  else .ok ()

/-- `track_response` with the sink write's possible exception made explicit:
an uncaught exception in `write_influx_point` would propagate out of
`track_response` before `_collected` is cleared. `sinkOk` says whether the
underlying sink write succeeds. -/
def track_response_io (sinkOk : Bool) (st : BridgeState) (line : String) :
    Except String (BridgeState × Option (List (String × ℚ))) :=
  match st.pending with
  | [] => .ok (st, none)
  | field :: rest =>
    match parseFloat (pyStrip line) with
    | none => .ok ({ st with pending := rest }, none)
    | some value =>
      let tv := dictSet st.tuiValues field (some value)
      if st.influxOn then
        let col := dictSet st.collected field value
        if requiredSubset col then
          match write_influx_point st.influxOn sinkOk with
          | .error e => .error e
          | .ok () =>
            .ok ({ st with pending := rest, tuiValues := tv, collected := [] }, some col)
        else
          .ok ({ st with pending := rest, tuiValues := tv, collected := col }, none)
      else
        .ok ({ st with pending := rest, tuiValues := tv }, none)

/-- Transport-level events performed by one iteration of the relay loop:
a write of the newline-terminated command bytes, a reply-line read, and a
forward of the reply to the WebSocket client. -/
inductive TEvent where
  | twrite (bytes : String)
  | tread
  | wsSend (line : String)
deriving DecidableEq, Repr

/-- Result of one `handler_tcp` loop iteration: updated state, transport
events in order, the record handed to the sink (if emitted), and whether the
session loop continues (false models `break`). -/
structure StepResult where
  state : BridgeState
  events : List TEvent
  emitted : Option (List (String × ℚ))
  continues : Bool
deriving DecidableEq, Repr

/-- One iteration of the `handler_tcp` message loop for inbound `message`:
strip; skip if empty; write `cmd + "\n"` (`writeOk = false` models the
`OSError` → `break` branch); `track_query`; when the command contains `?`,
read a reply (`readOk = false` models a read `OSError` → `break`; `raw` is
the decoded reply), strip it, and when non-empty forward it to the client
(`wsOk = false` models `websockets.ConnectionClosed` → `break`) and call
`track_response`. -/
def handler_step (st : BridgeState) (message : String)
    (writeOk readOk wsOk : Bool) (raw : String) : StepResult :=
  let cmd := pyStrip message
  if cmd = "" then ⟨st, [], none, true⟩
  else if !writeOk then ⟨st, [.twrite (cmd ++ "\n")], none, false⟩
  else
    let st1 := track_query st cmd
    if pyContains cmd '?' then
      if !readOk then ⟨st1, [.twrite (cmd ++ "\n"), .tread], none, false⟩
      else
        let line := pyStrip raw
        if line = "" then ⟨st1, [.twrite (cmd ++ "\n"), .tread], none, true⟩
        else if !wsOk then
          ⟨st1, [.twrite (cmd ++ "\n"), .tread], none, false⟩
        else
          let r := track_response st1 line
          ⟨r.1, [.twrite (cmd ++ "\n"), .tread, .wsSend line], r.2, true⟩
    else ⟨st1, [.twrite (cmd ++ "\n")], none, true⟩

/-- Fold `handler_step` (all I/O succeeding) over a list of
(inbound command, instrument reply) pairs, collecting emitted records. -/
def runHandler (st : BridgeState) (steps : List (String × String)) :
    BridgeState × List (List (String × ℚ)) :=
  steps.foldl
    (fun acc p =>
      let r := handler_step acc.1 p.1 true true true p.2
      (r.state, acc.2 ++ (match r.emitted with | some rcd => [rcd] | none => [])))
    (st, [])

/-- The literal six-query benchmark sequence from the spec, with the reply
each query receives. -/
def sixSeq : List (String × String) :=
  [("MEASURE:VOLTAGE? CH1", "12.340"),
   ("MEASURE:CURRENT? CH1", "1.500"),
   ("MEASURE:VOLTAGE? CH2", "5.010"),
   ("MEASURE:CURRENT? CH2", "0.250"),
   ("MEASURE:VOLTAGE? CH3", "0.000"),
   ("MEASURE:CURRENT? CH3", "0.000")]

/-- The record the benchmark sequence must emit: the values are exactly
12.34, 1.5, 5.01, 0.25, 0.0, 0.0 (written via `mkRat` so that the kernel can
evaluate the equality). -/
def expectedRecord : List (String × ℚ) :=
  [("ch1_v", mkRat 1234 100), ("ch1_i", mkRat 15 10), ("ch2_v", mkRat 501 100),
   ("ch2_i", mkRat 25 100), ("ch3_v", 0), ("ch3_i", 0)]

/-- A state in which five of the six required fields have been collected and
`ch3_i` is the pending query: one more numeric reply completes the record. -/
def aggWitState : BridgeState :=
  { pending := ["ch3_i"]
    collected := [("ch1_v", mkRat 1234 100), ("ch1_i", mkRat 15 10),
                  ("ch2_v", mkRat 501 100), ("ch2_i", mkRat 25 100), ("ch3_v", 0)]
    tuiValues := []
    influxOn := true }

/-- Outcome of the reply wait in the TUI send path: a line arrived within
the 2-second `asyncio.wait_for` window, or `asyncio.TimeoutError`. -/
inductive ReplyOutcome where
  | got (raw : String)
  | timeout
deriving DecidableEq, Repr

/-- The body of `_tcp_send(cmd)` (the `_usbtmc_send` body is identical up to
the transport calls): write the command (`writeErr` models the `OSError`
branch with its message), `track_query`, and for a `?` command wait for a
reply with a 2-second timeout — on a line, strip it, `track_response` it and
return it; on timeout return the sentinel `"(timeout)"` without touching the
tracker. The whole body runs under `async with _serial_lock`, so the gate is
released on every return path. Result: (state, returned reply text, whether
the routine closed the Transport — it never does). -/
def tcp_send (st : BridgeState) (cmd : String) (writeErr : Option String)
    (outcome : ReplyOutcome) : BridgeState × String × Bool :=
  match writeErr with
  | some e => (st, "(TCP error: " ++ e ++ ")", false)
  | none =>
    let st1 := track_query st cmd
    if pyContains cmd '?' then
      match outcome with
      | .got raw =>
        let resp := pyStrip raw
        let r := track_response st1 resp
        (r.1, resp, false)
      | .timeout => (st1, "(timeout)", false)
    else (st1, "", false)

/-- Fold `track_query` over a list of commands. -/
def track_queries (st : BridgeState) (cmds : List String) : BridgeState :=
  cmds.foldl track_query st

/-- Fold `track_response` over a list of reply lines, keeping the state. -/
def run_responses (st : BridgeState) (lines : List String) : BridgeState :=
  lines.foldl (fun s l => (track_response s l).1) st

/-- The field name each reply is paired with: entry `i` is the head of
`_pending_fields` at the moment reply `i` arrives, which is exactly the name
`track_response` pops (`_pending_fields.pop(0)`) for that reply. -/
def pairedFields (st : BridgeState) (lines : List String) : List (Option String) :=
  (List.range lines.length).map
    (fun i => (run_responses st (lines.take i)).pending.head?)

/-- Tracker-visible events of a bridge run: an outbound command passed to
`track_query`, or an instrument reply passed to `track_response`. -/
inductive BridgeEv where
  | query (cmd : String)
  | reply (line : String)
deriving DecidableEq, Repr

/-- Apply one tracker event to the state. -/
def applyEv (st : BridgeState) (e : BridgeEv) : BridgeState :=
  match e with
  | .query c => track_query st c
  | .reply l => (track_response st l).1

/-- Run a list of tracker events from a state. -/
def runEvents (st : BridgeState) (es : List BridgeEv) : BridgeState :=
  es.foldl applyEv st

/-- Lock-serialization model of `_serial_lock`: the one `asyncio.Lock` plus
each task's remaining program of atomic actions. Task `i` is the `i`-th
entry of `tasks`; `lock = some i` means task `i` holds the gate. -/
structure Sys where
  lock : Option ℕ
  tasks : List (List LAct)
deriving DecidableEq, Repr

/-- One cooperative scheduling step of task `k`: execute its next action if
enabled (acquiring requires the lock free, releasing requires holding it —
`async with` semantics; writes and reads run unconditionally), returning the
new system state and the action performed, or `none` when the task is done
or blocked. -/
def stepTask (s : Sys) (k : ℕ) : Sys × Option (ℕ × LAct) :=
  match s.tasks[k]? with
  | none => (s, none)
  | some [] => (s, none)
  | some (a :: rest) =>
    match a with
    | .acquire =>
      if s.lock = none then
        ({ lock := some k, tasks := s.tasks.set k rest }, some (k, .acquire))
      else (s, none)
    | .release =>
      if s.lock = some k then
        ({ lock := none, tasks := s.tasks.set k rest }, some (k, .release))
      else (s, none)
    | .lwrite => ({ s with tasks := s.tasks.set k rest }, some (k, .lwrite))
    | .lread => ({ s with tasks := s.tasks.set k rest }, some (k, .lread))

/-- The trace of actions produced by running an arbitrary schedule
(a list of task indices chosen by the event loop). -/
def runTrace (s : Sys) (sched : List ℕ) : List (ℕ × LAct) :=
  match sched with
  | [] => []
  | k :: ks =>
    match stepTask s k with
    | (s', none) => runTrace s' ks
    | (s', some ev) => ev :: runTrace s' ks

/-- An action touching the physical Transport (write or read). -/
def isWR (a : LAct) : Prop := a = .lwrite ∨ a = .lread

/-- A critical-section body: only transport writes and reads. -/
def critOnly (m : List LAct) : Prop := ∀ a ∈ m, a = .lwrite ∨ a = .lread

/-- The shape of every gated send in bridge.py (`handler_tcp` /
`handler_usbtmc` loop bodies, `_tcp_send`, `_usbtmc_send`): acquire the
gate, perform transport writes/reads, release the gate. -/
def progShape (p : List LAct) : Prop :=
  ∃ m, critOnly m ∧ p = .acquire :: (m ++ [.release])

/-- A task that has acquired the gate and not yet released it: its remaining
program is the rest of the critical section followed by the release. -/
def inside (p : List LAct) : Prop := ∃ m, critOnly m ∧ p = m ++ [.release]

/-- Reachable remaining-program shapes: not yet entered, inside the gate,
or finished. -/
def taskOk (p : List LAct) : Prop := progShape p ∨ inside p ∨ p = []

/-- System invariant: every task's remaining program has a reachable shape,
and any task inside the gate is the lock holder. -/
structure SysInv (s : Sys) : Prop where
  ok : ∀ (i : ℕ) (p : List LAct), s.tasks[i]? = some p → taskOk p
  locked : ∀ (i : ℕ) (p : List LAct), s.tasks[i]? = some p → inside p → s.lock = some i

/-- `track_query` only ever touches `_pending_fields`. -/
theorem track_query_others (st : BridgeState) (cmd : String) :
    (track_query st cmd).collected = st.collected ∧
    (track_query st cmd).tuiValues = st.tuiValues ∧
    (track_query st cmd).influxOn = st.influxOn := by
  unfold track_query
  cases lookupMeas (pyUpper (pyStrip cmd)) <;> simp

/-- `track_query` appends the looked-up field name, if any. -/
theorem track_query_pending (st : BridgeState) (cmd : String) :
    (track_query st cmd).pending =
      st.pending ++ (match lookupMeas (pyUpper (pyStrip cmd)) with
                     | some f => [f] | none => []) := by
  unfold track_query
  cases lookupMeas (pyUpper (pyStrip cmd)) <;> simp

/-- Every call to `track_response` leaves the tail of `_pending_fields`:
the oldest entry is popped when the queue is non-empty, whatever the reply
text, and an empty queue stays empty. -/
theorem track_response_pending (st : BridgeState) (line : String) :
    (track_response st line).1.pending = st.pending.tail := by
  cases hp : st.pending with
  | nil => simp [track_response, hp]
  | cons f rest =>
    cases hv : parseFloat (pyStrip line) with
    | none => simp [track_response, hp, hv]
    | some v =>
      simp only [track_response, hp, hv]
      by_cases hb : st.influxOn <;>
        by_cases hr : requiredSubset (dictSet st.collected f v) <;>
        simp [hb, hr]

/-- Folding replies drops one pending entry per reply. -/
theorem run_responses_pending (st : BridgeState) (lines : List String) :
    (run_responses st lines).pending = st.pending.drop lines.length := by
  induction lines generalizing st with
  | nil => simp [run_responses]
  | cons l ls ih =>
    have h1 : run_responses st (l :: ls) = run_responses (track_response st l).1 ls := by
      simp [run_responses]
    rw [h1, ih, track_response_pending, ← List.drop_one, List.drop_drop]
    simp [Nat.add_comm]

/-- Reading heads of successive drops of a list enumerates its first `n`
elements. -/
theorem range_map_head_drop {α : Type} (l : List α) (n : ℕ) (h : n ≤ l.length) :
    (List.range n).map (fun i => (l.drop i).head?) = (l.take n).map some := by
  induction l generalizing n with
  | nil =>
    have hn : n = 0 := Nat.le_zero.mp (by simpa using h)
    subst hn
    simp
  | cons a t ih =>
    cases n with
    | zero => simp
    | succ n =>
      have hn : n ≤ t.length := by simpa using h
      have ih' := ih n hn
      simp only [List.head?_drop] at ih' ⊢
      rw [List.range_succ_eq_map]
      simp only [List.map_cons, List.map_map, List.take_succ_cons]
      congr 1
      · simp
      · rw [← ih']
        apply List.map_congr_left
        intro i _
        simp

/-- `pairedFields` depends only on the starting pending queue. -/
theorem pairedFields_eq_drops (st : BridgeState) (lines : List String) :
    pairedFields st lines =
      (List.range lines.length).map (fun i => (st.pending.drop i).head?) := by
  unfold pairedFields
  apply List.map_congr_left
  intro i hi
  rw [run_responses_pending, List.length_take,
    Nat.min_eq_left (Nat.le_of_lt (List.mem_range.mp hi))]

/-- With `n` replies against a pending queue of at least `n` names, reply `i`
is paired with name `i`. -/
theorem pairedFields_of_pending (st : BridgeState) (lines : List String)
    (h : lines.length ≤ st.pending.length) :
    pairedFields st lines = (st.pending.take lines.length).map some := by
  rw [pairedFields_eq_drops, range_map_head_drop st.pending lines.length h]

/-- `lookupMeas` finds exactly the `MEAS_QUERIES` entries. -/
theorem lookupMeas_mem (n f : String) :
    lookupMeas n = some f ↔ (n, f) ∈ MEAS_QUERIES := by
  constructor
  · intro h
    unfold lookupMeas at h
    rcases hf : MEAS_QUERIES.find? (fun p => n = p.1) with _ | q
    · rw [hf] at h; simp at h
    · rw [hf] at h
      simp at h
      have hq := List.mem_of_find?_eq_some hf
      have hp := List.find?_some hf
      simp at hp
      subst hp
      rcases q with ⟨k, v⟩
      simp at h
      subst h
      exact hq
  · intro h
    simp only [MEAS_QUERIES, List.mem_cons, List.not_mem_nil, or_false] at h
    rcases h with h | h | h | h | h | h <;>
      (rw [Prod.ext_iff] at h; obtain ⟨h1, h2⟩ := h; subst h1; subst h2; rfl)

/-- Queued fields after tracking a batch of matching queries. -/
theorem track_queries_pending (st : BridgeState) (cmds fs : List String)
    (h : cmds.map (fun c => lookupMeas (pyUpper (pyStrip c))) = fs.map some) :
    (track_queries st cmds).pending = st.pending ++ fs := by
  induction cmds generalizing fs st with
  | nil =>
    cases fs with
    | nil => simp [track_queries]
    | cons f fs => simp at h
  | cons c cs ih =>
    cases fs with
    | nil => simp at h
    | cons f fs =>
      simp only [List.map_cons, List.cons.injEq] at h
      obtain ⟨h1, h2⟩ := h
      have hq : track_queries st (c :: cs) = track_queries (track_query st c) cs := by
        simp [track_queries]
      rw [hq, ih (track_query st c) fs h2]
      unfold track_query
      rw [h1]
      simp

/-- C1: for a sequence of N tracked queries followed by N reply lines in the
same order, the resolver pairs reply i with the field name enqueued for
query i — position-based FIFO correlation, regardless of the textual content
of each reply. -/
theorem c1_fifo_pairing (b : Bool) (cmds fs lines : List String)
    (hq : cmds.map (fun c => lookupMeas (pyUpper (pyStrip c))) = fs.map some)
    (hlen : lines.length = fs.length) :
    pairedFields (track_queries (initState b) cmds) lines = fs.map some := by
  have hp : (track_queries (initState b) cmds).pending = fs := by
    rw [track_queries_pending (initState b) cmds fs hq]
    simp [initState]
  rw [pairedFields_of_pending _ _ (by rw [hp, hlen]), hp, hlen, List.take_length]

/-- C1 witness: three queries, three arbitrary-content replies, paired in
FIFO order. -/
theorem c1_fifo_pairing_witness :
    pairedFields
      (track_queries (initState true)
        ["MEASURE:VOLTAGE? CH1", "measure:current? ch2", " MEASURE:VOLTAGE? CH3 "])
      ["12.34", "garbage", ""]
      = [some "ch1_v", some "ch2_i", some "ch3_v"] :=
  c1_fifo_pairing true _ ["ch1_v", "ch2_i", "ch3_v"] _ (by decide) (by decide)

/-- C3: a command whose trimmed uppercased text matches one of the six
`MEAS_QUERIES` patterns appends exactly the mapped field name to the pending
queue; any other command leaves the state unchanged. -/
theorem c3_track_query_exact_match (st : BridgeState) (cmd : String) :
    (∀ f, lookupMeas (pyUpper (pyStrip cmd)) = some f →
       (pyUpper (pyStrip cmd), f) ∈ MEAS_QUERIES ∧
       track_query st cmd = { st with pending := st.pending ++ [f] }) ∧
    ((∀ f, (pyUpper (pyStrip cmd), f) ∉ MEAS_QUERIES) → track_query st cmd = st) := by
  constructor
  · intro f h
    refine ⟨(lookupMeas_mem _ _).mp h, ?_⟩
    unfold track_query
    rw [h]
  · intro h
    unfold track_query
    cases heq : lookupMeas (pyUpper (pyStrip cmd)) with
    | none => rfl
    | some f => exact absurd ((lookupMeas_mem _ _).mp heq) (h f)

/-- C3 witness: a lower-case padded match enqueues `ch1_v`; instantiated
from the theorem at a concrete state and command. -/
theorem c3_track_query_exact_match_witness :
    (pyUpper (pyStrip " measure:voltage? ch1 "), "ch1_v") ∈ MEAS_QUERIES ∧
    track_query (initState true) " measure:voltage? ch1 " =
      { initState true with pending := (initState true).pending ++ ["ch1_v"] } :=
  (c3_track_query_exact_match (initState true) " measure:voltage? ch1 ").1 "ch1_v" (by decide)

/-- C5: on the interactive (TUI) send path, a reply wait that times out
yields the sentinel string "(timeout)"; the state is only what `track_query`
left (the relay continues on it), and the Transport is not closed (third
component). The serialization gate is released because every branch of
`_tcp_send` returns from inside `async with _serial_lock`. -/
theorem c5_interactive_timeout_sentinel (st : BridgeState) (cmd : String)
    (hq : pyContains cmd '?' = true) :
    tcp_send st cmd none .timeout = (track_query st cmd, "(timeout)", false) := by
  simp [tcp_send, hq]

/-- C5 witness: concrete timed-out query. -/
theorem c5_interactive_timeout_sentinel_witness :
    tcp_send (initState false) "MEASURE:VOLTAGE? CH1" none .timeout =
      (track_query (initState false) "MEASURE:VOLTAGE? CH1", "(timeout)", false) :=
  c5_interactive_timeout_sentinel (initState false) "MEASURE:VOLTAGE? CH1" (by decide)

/-- C6: an inbound command whose text contains no `?` never produces a
Transport read; on the success path the handler writes the command, updates
tracking, and completes the iteration with no further events. -/
theorem c6_no_read_without_question (st : BridgeState) (message : String)
    (h : pyContains (pyStrip message) '?' = false) :
    ∀ (writeOk readOk wsOk : Bool) (raw : String),
      TEvent.tread ∉ (handler_step st message writeOk readOk wsOk raw).events ∧
      (writeOk = true → pyStrip message ≠ "" →
        handler_step st message writeOk readOk wsOk raw =
          ⟨track_query st (pyStrip message), [.twrite (pyStrip message ++ "\n")], none, true⟩) := by
  intro writeOk readOk wsOk raw
  constructor
  · unfold handler_step
    by_cases h0 : pyStrip message = ""
    · simp [h0]
    · cases writeOk <;> simp [h0, h]
  · intro hw h0
    subst hw
    unfold handler_step
    simp [h0, h]

/-- C6 witness: a non-query command produces only the write event. -/
theorem c6_no_read_without_question_witness :
    TEvent.tread ∉ (handler_step (initState true) "OUTPUT CH1,ON" true true true "").events ∧
    handler_step (initState true) "OUTPUT CH1,ON" true true true "" =
      ⟨track_query (initState true) "OUTPUT CH1,ON", [.twrite (pyStrip "OUTPUT CH1,ON" ++ "\n")], none, true⟩ := by
  have h := c6_no_read_without_question (initState true) "OUTPUT CH1,ON" (by decide) true true true ""
  exact ⟨h.1, by rw [h.2 rfl (by decide)]; decide⟩

/-- C9: if a tracked query issued on the TUI path times out, the field name
`track_query` enqueued stays in the pending queue (the timeout branch never
calls `track_response`), so with the bridge previously idle the next reply —
on any path — is paired with that stale name, and every later reply is
paired with the field of the query one position earlier. -/
theorem c9_timeout_stale_entry (st : BridgeState) (cmd f : String)
    (hq : pyContains cmd '?' = true)
    (hf : lookupMeas (pyUpper (pyStrip cmd)) = some f)
    (hidle : st.pending = []) :
    (tcp_send st cmd none .timeout).1.pending = [f] ∧
    (tcp_send st cmd none .timeout).2.1 = "(timeout)" ∧
    (∀ cmds fs lines,
       cmds.map (fun c => lookupMeas (pyUpper (pyStrip c))) = fs.map some →
       lines.length ≤ fs.length + 1 →
       pairedFields (track_queries (tcp_send st cmd none .timeout).1 cmds) lines
         = ((f :: fs).take lines.length).map some) := by
  have hsend : tcp_send st cmd none .timeout = (track_query st cmd, "(timeout)", false) := by
    simp [tcp_send, hq]
  have hpend : (tcp_send st cmd none .timeout).1.pending = [f] := by
    rw [hsend]
    unfold track_query
    rw [hf]
    simp [hidle]
  refine ⟨hpend, by rw [hsend], ?_⟩
  intro cmds fs lines hcm hlen
  have hp : (track_queries (tcp_send st cmd none .timeout).1 cmds).pending = f :: fs := by
    rw [track_queries_pending _ cmds fs hcm, hpend]
    simp
  rw [pairedFields_of_pending _ _ (by rw [hp]; simpa using hlen), hp]

/-- C9 witness: after a timed-out `MEASURE:VOLTAGE? CH1`, a following
tracked `MEASURE:CURRENT? CH1` query and two replies pair the first reply
with the stale `ch1_v` and the second with `ch1_i`. -/
theorem c9_timeout_stale_entry_witness :
    (tcp_send (initState true) "MEASURE:VOLTAGE? CH1" none .timeout).1.pending = ["ch1_v"] ∧
    (tcp_send (initState true) "MEASURE:VOLTAGE? CH1" none .timeout).2.1 = "(timeout)" ∧
    pairedFields
      (track_queries (tcp_send (initState true) "MEASURE:VOLTAGE? CH1" none .timeout).1
        ["MEASURE:CURRENT? CH1"])
      ["3.25", "1.5"]
      = [some "ch1_v", some "ch1_i"] := by
  have h := c9_timeout_stale_entry (initState true) "MEASURE:VOLTAGE? CH1" "ch1_v"
    (by decide) (by decide) rfl
  refine ⟨h.1, h.2.1, ?_⟩
  have h3 := h.2.2 ["MEASURE:CURRENT? CH1"] ["ch1_i"] ["3.25", "1.5"] (by decide) (by decide)
  rw [h3]
  decide

/-- The benchmark record written with `mkRat` equals the decimal-literal
record of the spec. -/
theorem expectedRecord_decimal :
    expectedRecord =
      [("ch1_v", (12.34 : ℚ)), ("ch1_i", 1.5), ("ch2_v", 5.01),
       ("ch2_i", 0.25), ("ch3_v", 0), ("ch3_i", 0)] := by
  norm_num [expectedRecord]

/-- C2: the aggregator emits exactly when the just-added reply makes the
collected keys a superset of the six required fields, and emitting clears
the partial record; on the literal six-query benchmark run, exactly one
record with values 12.34, 1.5, 5.01, 0.25, 0.0, 0.0 is emitted and the
partial record is empty immediately after. -/
theorem c2_aggregator_emit_iff :
    (∀ (st : BridgeState) (line f : String) (rest : List String) (v : ℚ),
       st.influxOn = true → st.pending = f :: rest →
       parseFloat (pyStrip line) = some v →
       ((track_response st line).2.isSome = requiredSubset (dictSet st.collected f v)) ∧
       (requiredSubset (dictSet st.collected f v) = true →
          (track_response st line).2 = some (dictSet st.collected f v) ∧
          (track_response st line).1.collected = []) ∧
       (requiredSubset (dictSet st.collected f v) = false →
          (track_response st line).2 = none ∧
          (track_response st line).1.collected = dictSet st.collected f v)) ∧
    runHandler (initState true) sixSeq =
      ({ pending := [], collected := [],
         tuiValues := [("ch1_v", some (mkRat 1234 100)), ("ch1_i", some (mkRat 15 10)),
                       ("ch2_v", some (mkRat 501 100)), ("ch2_i", some (mkRat 25 100)),
                       ("ch3_v", some 0), ("ch3_i", some 0)],
         influxOn := true }, [expectedRecord]) := by
  constructor
  · intro st line f rest v hb hp hv
    by_cases hr : requiredSubset (dictSet st.collected f v) <;>
      simp [track_response, hp, hv, hb, hr]
  · decide

/-- C2 witness: from five collected fields, the completing `ch3_i` reply
emits the full record and clears the partial record. -/
theorem c2_aggregator_emit_iff_witness :
    (track_response aggWitState "0.000").2 = some (dictSet aggWitState.collected "ch3_i" 0) ∧
    (track_response aggWitState "0.000").1.collected = [] :=
  (c2_aggregator_emit_iff.1 aggWitState "0.000" "ch3_i" [] 0 rfl rfl (by decide)).2.1 (by decide)

/-- C4 counterexample: a whitespace-only reply line on the relayed read path
(`handler_tcp`) is received (the `tread` event occurs) while the pending
queue is non-empty (`ch1_v` was just enqueued for the query), yet no queue
entry is removed — the `if line:` guard skips `track_response` — refuting
"exactly one (the oldest) queue entry is removed" for such a line. -/
theorem c4_counterexample :
    (handler_step (initState true) "MEASURE:VOLTAGE? CH1" true true true " \n").events
      = [.twrite "MEASURE:VOLTAGE? CH1\n", .tread] ∧
    (handler_step (initState true) "MEASURE:VOLTAGE? CH1" true true true " \n").state.pending
      = ["ch1_v"] := by
  decide

/-- C4 (amended): on the relayed read path, whenever the received line is
non-empty after stripping (and the forward to the client succeeds), exactly
the oldest queue entry is removed regardless of whether the line parses as a
float; when it does not parse, that slot produces no aggregator update and
no emitted record. -/
theorem c4_amended_nonempty_reply (st : BridgeState) (message raw f : String)
    (rest : List String)
    (hq : pyContains (pyStrip message) '?' = true)
    (hne : pyStrip message ≠ "")
    (hraw : pyStrip raw ≠ "")
    (hp : (track_query st (pyStrip message)).pending = f :: rest) :
    (handler_step st message true true true raw).state.pending = rest ∧
    (parseFloat (pyStrip (pyStrip raw)) = none →
      (handler_step st message true true true raw).state.collected = st.collected ∧
      (handler_step st message true true true raw).state.tuiValues = st.tuiValues ∧
      (handler_step st message true true true raw).emitted = none) := by
  have hstep : handler_step st message true true true raw =
      ⟨(track_response (track_query st (pyStrip message)) (pyStrip raw)).1,
       [.twrite (pyStrip message ++ "\n"), .tread, .wsSend (pyStrip raw)],
       (track_response (track_query st (pyStrip message)) (pyStrip raw)).2, true⟩ := by
    unfold handler_step
    simp [hne, hq, hraw]
  constructor
  · rw [hstep]
    show (track_response (track_query st (pyStrip message)) (pyStrip raw)).1.pending = rest
    rw [track_response_pending, hp]
    rfl
  · intro hparse
    rw [hstep]
    have hq2 := track_query_others st (pyStrip message)
    simp only [track_response, hp, hparse]
    exact ⟨hq2.1, hq2.2.1, trivial⟩

/-- C4 witness for the amended claim: a non-numeric reply `"ERR"` consumes
the slot, leaves the partial record and TUI values unchanged, and emits
nothing. -/
theorem c4_amended_nonempty_reply_witness :
    (handler_step (initState true) "MEASURE:VOLTAGE? CH1" true true true "ERR").state.pending = [] ∧
    ((handler_step (initState true) "MEASURE:VOLTAGE? CH1" true true true "ERR").state.collected
        = (initState true).collected ∧
     (handler_step (initState true) "MEASURE:VOLTAGE? CH1" true true true "ERR").state.tuiValues
        = (initState true).tuiValues ∧
     (handler_step (initState true) "MEASURE:VOLTAGE? CH1" true true true "ERR").emitted = none) := by
  have h := c4_amended_nonempty_reply (initState true) "MEASURE:VOLTAGE? CH1" "ERR" "ch1_v" []
    (by decide) (by decide) (by decide) (by decide)
  exact ⟨h.1, h.2 (by decide)⟩

/-- C7: a failed sink write is recovered — `write_influx_point` returns
normally whatever the underlying write does, and `track_response` with the
exception made explicit never propagates an error and computes exactly the
same state and emission whether the sink write succeeds or fails (the
emitted sample is dropped, not retried). -/
theorem c7_sink_write_recovered (sinkOk : Bool) (st : BridgeState) (line : String) :
    (∀ b, write_influx_point b sinkOk = Except.ok ()) ∧
    track_response_io sinkOk st line = Except.ok (track_response st line) := by
  have hw : ∀ b, write_influx_point b sinkOk = Except.ok () := by
    intro b
    cases b <;> cases sinkOk <;> rfl
  refine ⟨hw, ?_⟩
  cases hp : st.pending with
  | nil => simp [track_response_io, track_response, hp]
  | cons f rest =>
    cases hv : parseFloat (pyStrip line) with
    | none => simp [track_response_io, track_response, hp, hv]
    | some v =>
      by_cases hb : st.influxOn <;>
        by_cases hr : requiredSubset (dictSet st.collected f v) <;>
          simp [track_response_io, track_response, hp, hv, hb, hr, hw]

/-- `track_response` with the sink disabled never touches `_collected`,
never emits, and keeps the sink disabled. -/
theorem track_response_disabled (st : BridgeState) (line : String)
    (h : st.influxOn = false) :
    (track_response st line).1.collected = st.collected ∧
    (track_response st line).1.influxOn = false ∧
    (track_response st line).2 = none := by
  cases hp : st.pending with
  | nil => simp [track_response, hp, h]
  | cons f rest =>
    cases hv : parseFloat (pyStrip line) with
    | none => simp [track_response, hp, hv, h]
    | some v => simp [track_response, hp, hv, h]

/-- Runs from a sink-disabled state keep the sink disabled and `_collected`
untouched. -/
theorem runEvents_disabled (es : List BridgeEv) (st : BridgeState)
    (h : st.influxOn = false) :
    (runEvents st es).influxOn = false ∧ (runEvents st es).collected = st.collected := by
  induction es generalizing st with
  | nil => exact ⟨h, rfl⟩
  | cons e es ih =>
    rcases e with c | l
    · have hq := track_query_others st c
      have hih := ih (track_query st c) (hq.2.2.trans h)
      refine ⟨hih.1, ?_⟩
      rw [show runEvents st (BridgeEv.query c :: es) = runEvents (track_query st c) es from rfl,
        hih.2, hq.1]
    · have ht := track_response_disabled st l h
      have hih := ih (track_response st l).1 ht.2.1
      refine ⟨hih.1, ?_⟩
      rw [show runEvents st (BridgeEv.reply l :: es)
            = runEvents (track_response st l).1 es from rfl,
        hih.2, ht.1]

/-- C10: with the sink not configured, in every reachable state the partial
record is empty, resolving a reply never emits a record, while a numeric
tracked reply still updates the live display values. -/
theorem c10_sink_disabled_invariant (es : List BridgeEv) :
    (runEvents (initState false) es).collected = [] ∧
    (∀ line, (track_response (runEvents (initState false) es) line).2 = none) ∧
    (∀ line f rest v,
       (runEvents (initState false) es).pending = f :: rest →
       parseFloat (pyStrip line) = some v →
       (track_response (runEvents (initState false) es) line).1.tuiValues =
         dictSet (runEvents (initState false) es).tuiValues f (some v)) := by
  have hr := runEvents_disabled es (initState false) rfl
  refine ⟨by rw [hr.2]; rfl, ?_, ?_⟩
  · intro line
    exact (track_response_disabled _ line hr.1).2.2
  · intro line f rest v hp hv
    simp [track_response, hp, hv, hr.1]

/-- C10 witness: one tracked query with the sink disabled; the numeric reply
updates the display value while the partial record stays empty. -/
theorem c10_sink_disabled_invariant_witness :
    (runEvents (initState false) [BridgeEv.query "MEASURE:VOLTAGE? CH1"]).collected = [] ∧
    (track_response (runEvents (initState false) [BridgeEv.query "MEASURE:VOLTAGE? CH1"])
        "12.5").1.tuiValues
      = dictSet (runEvents (initState false) [BridgeEv.query "MEASURE:VOLTAGE? CH1"]).tuiValues
          "ch1_v" (some (mkRat 125 10)) := by
  have h := c10_sink_disabled_invariant [BridgeEv.query "MEASURE:VOLTAGE? CH1"]
  exact ⟨h.1, h.2.2 "12.5" "ch1_v" [] (mkRat 125 10) (by decide) (by decide)⟩

/-- The empty program is not inside the gate. -/
theorem inside_nil_false : ¬ inside ([] : List LAct) := by
  rintro ⟨m, -, hm⟩
  cases m <;> simp at hm

/-- A task that has not started its gated send is not inside the gate. -/
theorem progShape_not_inside {p : List LAct} (h1 : progShape p) (h2 : inside p) :
    False := by
  obtain ⟨m, hm, rfl⟩ := h1
  obtain ⟨m', hm', heq⟩ := h2
  cases m' with
  | nil => simp at heq
  | cons b t =>
    have h1 : LAct.acquire = b ∧ m ++ [LAct.release] = t ++ [LAct.release] := by
      simpa using heq
    rcases hm' b (List.mem_cons_self b t) with hb | hb <;>
      (rw [hb] at h1; exact absurd h1.1 (by decide))

/-- A reachable program whose next action touches the Transport is inside
the gate, and stays inside after that action. -/
theorem taskOk_wr_head {a : LAct} {rest : List LAct} (h : taskOk (a :: rest))
    (hwr : isWR a) : inside (a :: rest) ∧ inside rest := by
  rcases h with h | h | h
  · obtain ⟨m, hm, heq⟩ := h
    have h1 : a = LAct.acquire ∧ rest = m ++ [LAct.release] := by simpa using heq
    rcases hwr with hw | hw <;> rw [hw] at h1 <;> exact absurd h1.1 (by decide)
  · obtain ⟨m, hm, heq⟩ := h
    cases m with
    | nil =>
      have h1 : a = LAct.release ∧ rest = [] := by simpa using heq
      rcases hwr with hw | hw <;> rw [hw] at h1 <;> exact absurd h1.1 (by decide)
    | cons b t =>
      have h1 : a = b ∧ rest = t ++ [LAct.release] := by simpa using heq
      refine ⟨⟨b :: t, hm, by rw [h1.1, h1.2]; rfl⟩, ?_⟩
      exact ⟨t, fun x hx => hm x (List.mem_cons_of_mem b hx), h1.2⟩
  · simp at h

/-- A reachable program about to release holds nothing else. -/
theorem taskOk_release_head {rest : List LAct} (h : taskOk (LAct.release :: rest)) :
    rest = [] := by
  rcases h with h | h | h
  · obtain ⟨m, hm, heq⟩ := h
    simp at heq
  · obtain ⟨m, hm, heq⟩ := h
    cases m with
    | nil => simpa using heq
    | cons b t =>
      have h1 : LAct.release = b ∧ rest = t ++ [LAct.release] := by simpa using heq
      rcases hm b (List.mem_cons_self b t) with hb | hb <;> rw [← h1.1] at hb <;>
        exact absurd hb (by decide)
  · simp at h

/-- A reachable program about to acquire enters the gate. -/
theorem taskOk_acquire_head {rest : List LAct} (h : taskOk (LAct.acquire :: rest)) :
    inside rest := by
  rcases h with h | h | h
  · obtain ⟨m, hm, heq⟩ := h
    have h1 : rest = m ++ [LAct.release] := by simpa using heq
    exact ⟨m, hm, h1⟩
  · obtain ⟨m, hm, heq⟩ := h
    cases m with
    | nil => simp at heq
    | cons b t =>
      have h1 : LAct.acquire = b ∧ rest = t ++ [LAct.release] := by simpa using heq
      rcases hm b (List.mem_cons_self b t) with hb | hb <;> rw [← h1.1] at hb <;>
        exact absurd hb (by decide)
  · simp at h

/-- Executing a transport action preserves the invariant. -/
theorem sysInv_step_wr (s : Sys) (k : ℕ) (hinv : SysInv s) (a : LAct)
    (rest : List LAct) (htk : s.tasks[k]? = some (a :: rest)) (hwr : isWR a) :
    SysInv { s with tasks := s.tasks.set k rest } := by
  have hboth := taskOk_wr_head (hinv.ok k _ htk) hwr
  have hlock : s.lock = some k := hinv.locked k _ htk hboth.1
  have hklen : k < s.tasks.length := (List.getElem?_eq_some.mp htk).1
  constructor
  · intro i p hp
    have hp' : (s.tasks.set k rest)[i]? = some p := hp
    by_cases hik : i = k
    · subst hik
      rw [List.getElem?_set_eq_of_lt rest hklen] at hp'
      cases hp'
      exact Or.inr (Or.inl hboth.2)
    · rw [List.getElem?_set_ne (Ne.symm hik)] at hp'
      exact hinv.ok i p hp'
  · intro i p hp hin
    have hp' : (s.tasks.set k rest)[i]? = some p := hp
    by_cases hik : i = k
    · subst hik
      exact hlock
    · rw [List.getElem?_set_ne (Ne.symm hik)] at hp'
      exact hinv.locked i p hp' hin

/-- Every scheduling step preserves the invariant. -/
theorem sysInv_step (s : Sys) (k : ℕ) (hinv : SysInv s) : SysInv (stepTask s k).1 := by
  cases htk : s.tasks[k]? with
  | none => simpa [stepTask, htk] using hinv
  | some p =>
    cases p with
    | nil => simpa [stepTask, htk] using hinv
    | cons a rest =>
      have hok := hinv.ok k (a :: rest) htk
      have hklen : k < s.tasks.length := (List.getElem?_eq_some.mp htk).1
      cases a with
      | acquire =>
        by_cases hl : s.lock = none
        · have hres : (stepTask s k).1 = { lock := some k, tasks := s.tasks.set k rest } := by
            simp [stepTask, htk, hl]
          rw [hres]
          have hrest : inside rest := taskOk_acquire_head hok
          constructor
          · intro i p hp
            have hp' : (s.tasks.set k rest)[i]? = some p := hp
            by_cases hik : i = k
            · subst hik
              rw [List.getElem?_set_eq_of_lt rest hklen] at hp'
              cases hp'
              exact Or.inr (Or.inl hrest)
            · rw [List.getElem?_set_ne (Ne.symm hik)] at hp'
              exact hinv.ok i p hp'
          · intro i p hp hin
            have hp' : (s.tasks.set k rest)[i]? = some p := hp
            by_cases hik : i = k
            · subst hik
              rfl
            · rw [List.getElem?_set_ne (Ne.symm hik)] at hp'
              have := hinv.locked i p hp' hin
              rw [hl] at this
              exact absurd this (by simp)
        · have hres : (stepTask s k).1 = s := by simp [stepTask, htk, hl]
          rw [hres]
          exact hinv
      | lwrite =>
        have hres : (stepTask s k).1 = { s with tasks := s.tasks.set k rest } := by
          simp [stepTask, htk]
        rw [hres]
        exact sysInv_step_wr s k hinv _ rest htk (Or.inl rfl)
      | lread =>
        have hres : (stepTask s k).1 = { s with tasks := s.tasks.set k rest } := by
          simp [stepTask, htk]
        rw [hres]
        exact sysInv_step_wr s k hinv _ rest htk (Or.inr rfl)
      | release =>
        by_cases hl : s.lock = some k
        · have hres : (stepTask s k).1 = { lock := none, tasks := s.tasks.set k rest } := by
            simp [stepTask, htk, hl]
          rw [hres]
          have hrest : rest = [] := taskOk_release_head hok
          constructor
          · intro i p hp
            have hp' : (s.tasks.set k rest)[i]? = some p := hp
            by_cases hik : i = k
            · subst hik
              rw [List.getElem?_set_eq_of_lt rest hklen] at hp'
              cases hp'
              exact Or.inr (Or.inr hrest)
            · rw [List.getElem?_set_ne (Ne.symm hik)] at hp'
              exact hinv.ok i p hp'
          · intro i p hp hin
            have hp' : (s.tasks.set k rest)[i]? = some p := hp
            by_cases hik : i = k
            · subst hik
              rw [List.getElem?_set_eq_of_lt rest hklen] at hp'
              cases hp'
              rw [hrest] at hin
              exact absurd hin inside_nil_false
            · rw [List.getElem?_set_ne (Ne.symm hik)] at hp'
              have := hinv.locked i p hp' hin
              rw [hl] at this
              exact absurd (Option.some.inj this).symm hik
        · have hres : (stepTask s k).1 = s := by simp [stepTask, htk, hl]
          rw [hres]
          exact hinv

/-- While some task is inside the gate, every step of any other task is a
no-op: its acquire blocks, it cannot be releasing, and it cannot be at a
transport action. -/
theorem step_blocked (s : Sys) (hinv : SysInv s) (m : ℕ) (pm : List LAct)
    (hm : s.tasks[m]? = some pm) (hin : inside pm) (k : ℕ) (hk : k ≠ m) :
    stepTask s k = (s, none) := by
  have hlock : s.lock = some m := hinv.locked m pm hm hin
  cases htk : s.tasks[k]? with
  | none => simp [stepTask, htk]
  | some p =>
    cases p with
    | nil => simp [stepTask, htk]
    | cons a rest =>
      cases a with
      | acquire =>
        have hne : ¬ s.lock = none := by rw [hlock]; simp
        simp [stepTask, htk, hne]
      | release =>
        have hne : ¬ s.lock = some k := by
          rw [hlock]
          intro hc
          exact hk (Option.some.inj hc).symm
        simp [stepTask, htk, hne]
      | lwrite =>
        exfalso
        have hboth := taskOk_wr_head (hinv.ok k _ htk) (Or.inl rfl)
        have := hinv.locked k _ htk hboth.1
        rw [hlock] at this
        exact hk (Option.some.inj this).symm
      | lread =>
        exfalso
        have hboth := taskOk_wr_head (hinv.ok k _ htk) (Or.inr rfl)
        have := hinv.locked k _ htk hboth.1
        rw [hlock] at this
        exact hk (Option.some.inj this).symm

/-- A task inside the gate either releases it or performs the next transport
action of its critical section and stays inside. -/
theorem step_inside (s : Sys) (hinv : SysInv s) (m : ℕ) (pm : List LAct)
    (hm : s.tasks[m]? = some pm) (hin : inside pm) :
    (pm = [LAct.release] ∧
      stepTask s m = ({ lock := none, tasks := s.tasks.set m [] }, some (m, LAct.release))) ∨
    (∃ a rest, pm = a :: rest ∧ isWR a ∧ inside rest ∧
      stepTask s m = ({ s with tasks := s.tasks.set m rest }, some (m, a))) := by
  have hlock : s.lock = some m := hinv.locked m pm hm hin
  obtain ⟨mm, hmm, heq⟩ := hin
  cases mm with
  | nil =>
    left
    subst heq
    exact ⟨rfl, by simp [stepTask, hm, hlock]⟩
  | cons b t =>
    right
    have hb := hmm b (List.mem_cons_self b t)
    refine ⟨b, t ++ [LAct.release], by simpa using heq,
      hb, ⟨t, fun x hx => hmm x (List.mem_cons_of_mem b hx), rfl⟩, ?_⟩
    subst heq
    rcases hb with hb | hb <;> subst hb <;> simp [stepTask, hm]

/-- An observed transport action belongs to the scheduled task, which was at
that action and advances past it. -/
theorem stepTask_event (s : Sys) (k : ℕ) (s' : Sys) (m : ℕ) (act : LAct)
    (h : stepTask s k = (s', some (m, act))) (hwr : isWR act) :
    m = k ∧ ∃ rest, s.tasks[k]? = some (act :: rest) ∧
      s' = { s with tasks := s.tasks.set k rest } := by
  cases htk : s.tasks[k]? with
  | none => simp [stepTask, htk] at h
  | some p =>
    cases p with
    | nil => simp [stepTask, htk] at h
    | cons a rest =>
      cases a with
      | acquire =>
        by_cases hl : s.lock = none
        · simp only [stepTask, htk, hl, if_true] at h
          obtain ⟨-, h2⟩ := Prod.mk.injEq .. ▸ h
          rcases hwr with hw | hw <;> rw [hw] at h2 <;> simp at h2
        · simp [stepTask, htk, hl] at h
      | release =>
        by_cases hl : s.lock = some k
        · simp only [stepTask, htk, hl, if_true] at h
          obtain ⟨-, h2⟩ := Prod.mk.injEq .. ▸ h
          rcases hwr with hw | hw <;> rw [hw] at h2 <;> simp at h2
        · simp [stepTask, htk, hl] at h
      | lwrite =>
        simp only [stepTask, htk] at h
        have h1 := congrArg Prod.fst h
        have h2 := congrArg Prod.snd h
        simp only at h1 h2
        obtain ⟨hk, hact⟩ : k = m ∧ LAct.lwrite = act := by
          simpa using h2
        exact ⟨hk.symm, rest, by rw [← hact], h1.symm⟩
      | lread =>
        simp only [stepTask, htk] at h
        have h1 := congrArg Prod.fst h
        have h2 := congrArg Prod.snd h
        simp only at h1 h2
        obtain ⟨hk, hact⟩ : k = m ∧ LAct.lread = act := by
          simpa using h2
        exact ⟨hk.symm, rest, by rw [← hact], h1.symm⟩

/-- While task `m` is inside the gate, any transport action of another task
in the rest of the trace is preceded by `m`'s release. -/
theorem released_between (sched : List ℕ) (s : Sys) (hinv : SysInv s)
    (m : ℕ) (pm : List LAct) (hm : s.tasks[m]? = some pm) (hin : inside pm) :
    ∀ t1 j a t2, runTrace s sched = t1 ++ (j, a) :: t2 → isWR a → j ≠ m →
      (m, LAct.release) ∈ t1 := by
  induction sched generalizing s pm hinv hm hin with
  | nil =>
    intro t1 j a t2 h _ _
    cases t1 <;> simp [runTrace] at h
  | cons k ks ih =>
    intro t1 j a t2 htr hwr hjm
    by_cases hkm : k = m
    · subst hkm
      rcases step_inside s hinv k pm hm hin with ⟨hpm, hstep⟩ | ⟨b, rest, hpm, hbwr, hbin, hstep⟩
      · have htr2 : runTrace s (k :: ks) =
            (k, LAct.release) :: runTrace { lock := none, tasks := s.tasks.set k [] } ks := by
          simp [runTrace, hstep]
        rw [htr2] at htr
        cases t1 with
        | nil =>
          simp only [List.nil_append, List.cons.injEq, Prod.mk.injEq] at htr
          obtain ⟨⟨-, ha⟩, -⟩ := htr
          rcases hwr with hw | hw <;> rw [hw] at ha <;> simp at ha
        | cons x t1' =>
          simp only [List.cons_append, List.cons.injEq] at htr
          rw [← htr.1]
          exact List.mem_cons_self _ _
      · have hklen : k < s.tasks.length := (List.getElem?_eq_some.mp hm).1
        have hinv' : SysInv { s with tasks := s.tasks.set k rest } :=
          sysInv_step_wr s k hinv b rest (by rw [← hpm]; exact hm) hbwr
        have hm' : ({ s with tasks := s.tasks.set k rest }).tasks[k]? = some rest :=
          List.getElem?_set_eq_of_lt rest hklen
        have htr2 : runTrace s (k :: ks) =
            (k, b) :: runTrace { s with tasks := s.tasks.set k rest } ks := by
          simp [runTrace, hstep]
        rw [htr2] at htr
        cases t1 with
        | nil =>
          simp only [List.nil_append, List.cons.injEq, Prod.mk.injEq] at htr
          exact absurd htr.1.1.symm hjm
        | cons x t1' =>
          simp only [List.cons_append, List.cons.injEq] at htr
          exact List.mem_cons_of_mem x (ih _ hinv' rest hm' hbin t1' j a t2 htr.2 hwr hjm)
    · have hb := step_blocked s hinv m pm hm hin k hkm
      have htr2 : runTrace s (k :: ks) = runTrace s ks := by simp [runTrace, hb]
      rw [htr2] at htr
      exact ih s hinv pm hm hin t1 j a t2 htr hwr hjm

/-- In any run from an invariant state, between two transport actions of
different tasks the first task's release occurs. -/
theorem no_interleave_aux (sched : List ℕ) (s : Sys) (hinv : SysInv s) :
    ∀ t1 t2 t3 i j a1 a2,
      runTrace s sched = t1 ++ (i, a1) :: (t2 ++ (j, a2) :: t3) →
      isWR a1 → isWR a2 → j ≠ i → (i, LAct.release) ∈ t2 := by
  induction sched generalizing s hinv with
  | nil =>
    intro t1 t2 t3 i j a1 a2 htr _ _ _
    cases t1 <;> simp [runTrace] at htr
  | cons k ks ih =>
    intro t1 t2 t3 i j a1 a2 htr hw1 hw2 hji
    rcases hst : stepTask s k with ⟨s', e⟩
    have hinv' : SysInv s' := by
      have h := sysInv_step s k hinv
      rw [hst] at h
      exact h
    cases e with
    | none =>
      have htr2 : runTrace s (k :: ks) = runTrace s' ks := by simp [runTrace, hst]
      rw [htr2] at htr
      exact ih s' hinv' t1 t2 t3 i j a1 a2 htr hw1 hw2 hji
    | some ev =>
      obtain ⟨mm, act⟩ := ev
      have htr2 : runTrace s (k :: ks) = (mm, act) :: runTrace s' ks := by
        simp [runTrace, hst]
      rw [htr2] at htr
      cases t1 with
      | nil =>
        simp only [List.nil_append, List.cons.injEq, Prod.mk.injEq] at htr
        obtain ⟨⟨hmi, hact⟩, htr'⟩ := htr
        have hwact : isWR act := by rw [hact]; exact hw1
        obtain ⟨hmk, rest, hrest, hs'⟩ := stepTask_event s k s' mm act hst hwact
        have hboth := taskOk_wr_head (hinv.ok k _ hrest) hwact
        have hklen : k < s.tasks.length := (List.getElem?_eq_some.mp hrest).1
        have hm' : s'.tasks[k]? = some rest := by
          rw [hs']
          exact List.getElem?_set_eq_of_lt rest hklen
        have hji' : j ≠ k := by rw [← hmk, hmi]; exact hji
        rw [← hmi, hmk]
        exact released_between ks s' hinv' k rest hm' hboth.2 t2 j a2 t3 htr' hw2 hji'
      | cons x t1' =>
        simp only [List.cons_append, List.cons.injEq] at htr
        exact ih s' hinv' t1' t2 t3 i j a1 a2 htr.2 hw1 hw2 hji

/-- C8: every gated send (acquire the `_serial_lock` gate, write, optionally
read, release) is serialized: starting from a free gate and any collection
of tasks each about to run such a send, under every cooperative schedule, if
two transport actions of different tasks appear in the trace then the first
task's release lies between them — a second concurrently issued command
waits until the first write/read sequence fully completes. -/
theorem c8_gate_serializes (s : Sys)
    (hshape : ∀ (i : ℕ) (p : List LAct), s.tasks[i]? = some p → progShape p)
    (hlock : s.lock = none) :
    ∀ (sched : List ℕ) (t1 t2 t3 : List (ℕ × LAct)) (i j : ℕ) (a1 a2 : LAct),
      runTrace s sched = t1 ++ (i, a1) :: (t2 ++ (j, a2) :: t3) →
      isWR a1 → isWR a2 → j ≠ i → (i, LAct.release) ∈ t2 := by
  have hinv : SysInv s := by
    constructor
    · intro i p hp
      exact Or.inl (hshape i p hp)
    · intro i p hp hin
      exact (progShape_not_inside (hshape i p hp) hin).elim
  intro sched
  exact no_interleave_aux sched s hinv

/-- C8 witness: two relay tasks, each a full gated send with a read; under a
schedule that tries to interleave them, task 1's write can only appear after
task 0's release — instantiating the theorem at a concrete decomposition of
the computed trace. -/
theorem c8_gate_serializes_witness :
    (0, LAct.release) ∈ [(0, LAct.lread), (0, LAct.release), (1, LAct.acquire)] := by
  have hshape : ∀ (i : ℕ) (p : List LAct),
      (Sys.mk none [[.acquire, .lwrite, .lread, .release],
                    [.acquire, .lwrite, .lread, .release]]).tasks[i]? = some p →
      progShape p := by
    intro i p hp
    have hprog : progShape [LAct.acquire, LAct.lwrite, LAct.lread, LAct.release] := by
      refine ⟨[LAct.lwrite, LAct.lread], ?_, rfl⟩
      intro a ha
      simp only [List.mem_cons, List.not_mem_nil, or_false] at ha
      rcases ha with h | h <;> [exact Or.inl h; exact Or.inr h]
    match i with
    | 0 =>
      have : p = [LAct.acquire, LAct.lwrite, LAct.lread, LAct.release] := by
        simpa using hp.symm
      rw [this]
      exact hprog
    | 1 =>
      have : p = [LAct.acquire, LAct.lwrite, LAct.lread, LAct.release] := by
        simpa using hp.symm
      rw [this]
      exact hprog
    | n + 2 => simp at hp
  exact c8_gate_serializes
    (Sys.mk none [[.acquire, .lwrite, .lread, .release],
                  [.acquire, .lwrite, .lread, .release]])
    hshape rfl
    [0, 0, 1, 0, 0, 1, 1, 1, 1]
    [(0, LAct.acquire)] [(0, LAct.lread), (0, LAct.release), (1, LAct.acquire)]
    [(1, LAct.lread), (1, LAct.release)]
    0 1 LAct.lwrite LAct.lwrite
    (by decide) (Or.inl rfl) (Or.inl rfl) (by decide)
